import Mathlib

/-!
Verification of the storage lifecycle engine of scripts/storage_manager.py
(class IntelligentStorageManager).  The Python code is shallowly embedded:
remote-store effects (download, upload, delete, listing) are passed in as
explicit oracles, and each method becomes a pure Lean function over those
oracles.  Timestamps are calendar triples, sizes are naturals (bytes), and
the float GB quantities of the source are modelled as rationals.
-/

namespace StorageManager

/-- Calendar timestamp, standing for the datetime values parsed from the
Drive createdTime field.  Comparison is chronological (lexicographic on
year, month, day). -/
structure DateTime where
  year : Nat
  month : Nat
  day : Nat
  deriving DecidableEq

/-- Chronological strict comparison of two timestamps, the embedding of
Python datetime comparison file_date < cutoff_date. -/
def DateTime.before (a b : DateTime) : Bool :=
  decide (a.year < b.year) ||
    (a.year == b.year && (decide (a.month < b.month) ||
      (a.month == b.month && decide (a.day < b.day))))

/-- Snapshot of the remote metadata of one file, as returned by
list_files_in_folder: fields id, name, size, createdTime. -/
structure FileRecord where
  id : Nat
  name : String
  size : Nat
  createdAt : DateTime
  deriving DecidableEq

/-- Embedding of the Python format f"\x7bfile_date.month:02d\x7d": the month
number printed with a leading zero when below ten. -/
def pad2 (n : Nat) : String :=
  if n < 10 then "0" ++ toString n else toString n

/-- Month key built in compress_and_archive_data:
f"\x7bfile_date.year\x7d-\x7bfile_date.month:02d\x7d". -/
def monthKey (d : DateTime) : String :=
  toString d.year ++ "-" ++ pad2 d.month

/-- Check that the first list is an initial segment of the second,
character by character. -/
def listHasHead : List Char → List Char → Bool
  | [], _ => true
  | _ :: _, [] => false
  | p :: ps, c :: cs => p == c && listHasHead ps cs

/-- Embedding of Python str.endswith, used as file.name.endswith of the
.h5 marker in manage_model_versions. -/
def strEndsWith (s pat : String) : Bool :=
  listHasHead pat.data.reverse s.data.reverse

/-- Check for an occurrence of the pattern at any position. -/
def containsAt (pat : List Char) : List Char → Bool
  | [] => listHasHead pat []
  | c :: cs => listHasHead pat (c :: cs) || containsAt pat cs

/-- Embedding of the Python substring test pat in s, the marker test the
spec describes for already-compressed names. -/
def strContains (s pat : String) : Bool :=
  containsAt pat.data s.data

/-- Append a file to the group of the given month key in an
insertion-ordered association list, creating the entry when absent: the
embedding of the monthly_groups dict update in compress_and_archive_data. -/
def addToGroups (groups : List (String × List FileRecord)) (k : String)
    (f : FileRecord) : List (String × List FileRecord) :=
  match groups with
  | [] => [(k, [f])]
  | (q, fs) :: rest =>
      if q = k then (q, fs ++ [f]) :: rest else (q, fs) :: addToGroups rest k f

/-- Read the group stored under a month key, the empty list when the key
is absent. -/
def lookupGroup : List (String × List FileRecord) → String → List FileRecord
  | [], _ => []
  | (q, fs) :: rest, key => if q = key then fs else lookupGroup rest key

/-- Monthly classification loop of compress_and_archive_data (lines
97 to 108): every file strictly older than the cutoff is appended to the
group of the month key derived from its own createdTime; no other test is
applied. -/
def classifyForArchive (files : List FileRecord) (cutoff : DateTime) :
    List (String × List FileRecord) :=
  files.foldl
    (fun groups f =>
      if f.createdAt.before cutoff then
        addToGroups groups (monthKey f.createdAt) f
      else groups)
    []

/-- Decidable equality of Except values with decidable components, used
to evaluate the embedded functions on concrete inputs. -/
instance {ε α : Type} [DecidableEq ε] [DecidableEq α] :
    DecidableEq (Except ε α) := fun x y =>
  match x, y with
  | .error a, .error b =>
      if h : a = b then isTrue (by rw [h])
      else isFalse (fun hh => h (Except.error.inj hh))
  | .ok a, .ok b =>
      if h : a = b then isTrue (by rw [h])
      else isFalse (fun hh => h (Except.ok.inj hh))
  | .error _, .ok _ => isFalse (fun hh => Except.noConfusion hh)
  | .ok _, .error _ => isFalse (fun hh => Except.noConfusion hh)

/-- Tabular content of one downloaded CSV file: a list of rows. -/
abbrev Df := List (List String)

/-- Oracles for the remote effects used by the archiver: the outcome of
downloading a file, whether the upload of a given filename succeeds (a
false answer stands for the upload call raising), and whether deleting a
given file id succeeds. -/
structure ArchiveEnv where
  download : FileRecord → Except String Df
  uploadOk : String → Bool
  deleteOk : Nat → Bool

/-- Download phase of one monthly group (lines 115 to 133): each file is
downloaded and parsed; a failure is caught, logged and skipped, so only
the successfully read frames are collected, in order. -/
def downloadGroup (env : ArchiveEnv) (files : List FileRecord) : List Df :=
  files.foldl
    (fun acc f =>
      match env.download f with
      | .ok df => acc ++ [df]
      | .error _ => acc)
    []

/-- Canonical archive name f"forex_data_\x7bmonth\x7d_compressed.csv.gz". -/
def archiveFilename (month : String) : String :=
  "forex_data_" ++ month ++ "_compressed.csv.gz"

/-- Outcome of processing one monthly group: ids of the original files
whose deletion succeeded, and whether an exception escaped the group
(the upload call is the only uncaught call in the group body). -/
structure ArchiveResult where
  deleted : List Nat
  raised : Bool
  deriving DecidableEq

/-- Per-group body of compress_and_archive_data (lines 111 to 147): the
group is downloaded with failures skipped; when at least one frame was
read the combined frame is uploaded, and only then every member file of
the group is deleted through delete_file, whose own failures are caught.
When the upload raises, the loop body is abandoned with nothing deleted. -/
def archiveMonth (env : ArchiveEnv) (month : String)
    (month_files : List FileRecord) : ArchiveResult :=
  let monthly_data := downloadGroup env month_files
  if monthly_data.isEmpty then ⟨[], false⟩
  else
    if env.uploadOk (archiveFilename month) then
      ⟨(month_files.filter (fun f => env.deleteOk f.id)).map (fun f => f.id),
        false⟩
    else ⟨[], true⟩

/-- Outcome of the whole archiving pass: deletions performed, and the
message of the exception that escaped it, if any. -/
structure CompressResult where
  deleted : List Nat
  raised : Option String
  deriving DecidableEq

/-- Iteration of archiveMonth over the monthly groups: an exception raised
in one group propagates, so later groups are not processed. -/
def processGroups (env : ArchiveEnv) :
    List (String × List FileRecord) → CompressResult
  | [] => ⟨[], none⟩
  | (m, fs) :: rest =>
      let r := archiveMonth env m fs
      if r.raised then ⟨r.deleted, some "upload failed"⟩
      else
        let rr := processGroups env rest
        ⟨r.deleted ++ rr.deleted, rr.raised⟩

/-- Embedding of list_files_in_folder (lines 68 to 76): one listing call
is made; on success the files field is read with default empty, and an
error from the call propagates to the caller unchanged.  There is no
retry, no backoff and no catch in the source. -/
def list_files_in_folder (executeResult : Except String (Option (List FileRecord))) :
    Except String (List FileRecord) :=
  match executeResult with
  | .error e => .error e
  | .ok files => .ok (files.getD [])

/-- Embedding of compress_and_archive_data as a whole: the raw folder is
listed (an error in the listing propagates), the surviving files are
classified by month, and each group is archived in turn. -/
def compress_and_archive_data (env : ArchiveEnv) (cutoff : DateTime)
    (listing : Except String (Option (List FileRecord))) : CompressResult :=
  match list_files_in_folder listing with
  | .error e => ⟨[], some e⟩
  | .ok files => processGroups env (classifyForArchive files cutoff)

/-- One entry of the sorted_models list of manage_model_versions: a model
file together with the performance looked up for it. -/
structure ModelInfo where
  file : FileRecord
  performance : ℚ
  deriving DecidableEq

/-- Performance of a model file name under the loaded metrics dictionary:
model_performance.get(name, 0), with the dictionary as an association
list. -/
def perfOf (metrics : List (String × ℚ)) (name : String) : ℚ :=
  (metrics.lookup name).getD 0

/-- Construction of the sorted_models list before sorting (lines 196 to
203): only files whose name ends with .h5 are considered, each paired
with its looked-up performance, remote order preserved. -/
def buildModels (model_files : List FileRecord) (metrics : List (String × ℚ)) :
    List ModelInfo :=
  (model_files.filter (fun f => strEndsWith f.name ".h5")).map
    (fun f => ⟨f, perfOf metrics f.name⟩)

/-- Insert one entry into a list sorted by performance descending, after
every entry of greater or equal performance: the placement a stable
descending sort gives to a newly considered element. -/
def insertDesc (x : ModelInfo) : List ModelInfo → List ModelInfo
  | [] => [x]
  | y :: ys =>
      if y.performance < x.performance then x :: y :: ys
      else y :: insertDesc x ys

/-- Stable descending sort by performance, the embedding of the Python
list.sort with key performance and reverse set (Python sorts are stable:
entries of equal key keep their input order). -/
def sortDesc (l : List ModelInfo) : List ModelInfo :=
  l.foldl (fun acc x => insertDesc x acc) []

/-- Indexed partition loop of manage_model_versions (lines 211 to 221):
position below models_to_keep is kept, position below backups_to_keep is
moved to backup, the rest is deleted. -/
def partitionModels (keepN backupN : Nat) :
    Nat → List ModelInfo → List ModelInfo × List ModelInfo × List ModelInfo
  | _, [] => ([], [], [])
  | i, x :: xs =>
      let r := partitionModels keepN backupN (i + 1) xs
      if i < keepN then (x :: r.1, r.2.1, r.2.2)
      else if i < backupN then (r.1, x :: r.2.1, r.2.2)
      else (r.1, r.2.1, x :: r.2.2)

/-- Embedding of manage_model_versions: filter to .h5 files, look up the
performance of each, sort stably by performance descending, then
partition by position into kept, moved-to-backup and deleted models. -/
def manage_model_versions (model_files : List FileRecord)
    (metrics : List (String × ℚ)) (keepN backupN : Nat) :
    List ModelInfo × List ModelInfo × List ModelInfo :=
  partitionModels keepN backupN 0 (sortDesc (buildModels model_files metrics))

/-- Total size in bytes of a list of files. -/
def sumSizes (l : List FileRecord) : Nat :=
  (l.map (fun f => f.size)).sum

/-- Deletion loop of emergency_cleanup (lines 304 to 311): before each
candidate the accumulated freed bytes are compared against the target;
once the target is reached the loop breaks.  Otherwise the candidate is
deleted, and its size is added to the total only when delete_file
succeeded.  The result is the list of files actually deleted, in order,
and the final freed byte count. -/
def emergencyLoop (deleteOk : Nat → Bool) (target : ℚ) :
    List FileRecord → Nat → List FileRecord × Nat
  | [], freed => ([], freed)
  | f :: fs, freed =>
      if target ≤ (freed : ℚ) then ([], freed)
      else if deleteOk f.id then
        let r := emergencyLoop deleteOk target fs (freed + f.size)
        (f :: r.1, r.2)
      else emergencyLoop deleteOk target fs freed

/-- Embedding of emergency_cleanup (lines 289 to 311): nothing happens
unless usage exceeds the configured maximum; otherwise the processed
files, given oldest first, are deleted sequentially against the target
of (used - max + 1) gigabytes expressed in bytes. -/
def emergency_cleanup (deleteOk : Nat → Bool) (usedGB maxStorageGB : ℚ)
    (files : List FileRecord) : List FileRecord × Nat :=
  if maxStorageGB < usedGB then
    emergencyLoop deleteOk ((usedGB - maxStorageGB + 1) * 1024 ^ 3) files 0
  else ([], 0)

/-- Recommendation emitted when usage exceeds eighty percent of the
limit. -/
def recCleanup : String := "Almacenamiento al 80%+ - Ejecutar limpieza"

/-- Recommendation emitted when the raw category holds more than one
hundred files. -/
def recCompress : String := "Muchos archivos crudos - Comprimir datos antiguos"

/-- Recommendation emitted when the models category holds more than ten
files. -/
def recPrune : String := "Muchos modelos - Eliminar versiones antiguas"

/-- Recommendation block of generate_storage_report (lines 393 to 401):
three independent threshold tests, each appending one fixed message. -/
def recommendationsFor (usedGB limitGB : ℚ) (rawCount modelsCount : Nat) :
    List String :=
  (if limitGB * mkRat 8 10 < usedGB then [recCleanup] else []) ++
    (if 100 < rawCount then [recCompress] else []) ++
      (if 10 < modelsCount then [recPrune] else [])

/-- Report assembled by generate_storage_report, restricted to the fields
the recommendations depend on. -/
structure StorageReport where
  usedGB : ℚ
  limitGB : ℚ
  fileCountRaw : Nat
  fileCountModels : Nat
  recommendations : List String
  deriving DecidableEq

/-- Embedding of generate_storage_report: usage and per-category counts
are gathered and the threshold recommendations derived from them. -/
def generate_storage_report (usedGB limitGB : ℚ) (rawCount modelsCount : Nat) :
    StorageReport :=
  ⟨usedGB, limitGB, rawCount, modelsCount,
    recommendationsFor usedGB limitGB rawCount modelsCount⟩

/-- Outcomes of the successive states of one run_full_cleanup invocation:
for each state, the message of the exception it raises, or none when it
completes; the usage reading that decides the emergency state; and the
inventory data feeding the final report. -/
structure RunEnv where
  optimizeErr : Option String
  archiveErr : Option String
  modelsErr : Option String
  cleanErr : Option String
  usedGBAfter : ℚ
  maxStorageGB : ℚ
  emergencyErr : Option String
  reportErr : Option String
  usedGB : ℚ
  limitGB : ℚ
  rawCount : Nat
  modelsCount : Nat
  deriving DecidableEq

/-- Embedding of run_full_cleanup (lines 434 to 471): the states run in
sequence with no try block anywhere in the method, so the first state
that raises aborts the whole run with that exception; the emergency state
runs only when the rechecked usage still exceeds the configured maximum;
the report is produced only when every state before it completed. -/
def run_full_cleanup (env : RunEnv) : Except String StorageReport :=
  match env.optimizeErr with
  | some e => .error e
  | none =>
    match env.archiveErr with
    | some e => .error e
    | none =>
      match env.modelsErr with
      | some e => .error e
      | none =>
        match env.cleanErr with
        | some e => .error e
        | none =>
          match
            (if env.maxStorageGB < env.usedGBAfter then env.emergencyErr
             else none) with
          | some e => .error e
          | none =>
            match env.reportErr with
            | some e => .error e
            | none =>
              .ok (generate_storage_report env.usedGB env.limitGB
                env.rawCount env.modelsCount)

/-! ## Lemmas on the monthly classification -/

/-- Key membership of addToGroups: appending a file under key k extends
the group of k and leaves every other group unchanged. -/
theorem lookupGroup_addToGroups (groups : List (String × List FileRecord))
    (k : String) (f : FileRecord) (key : String) :
    lookupGroup (addToGroups groups k f) key =
      if k = key then lookupGroup groups key ++ [f]
      else lookupGroup groups key := by
  induction groups with
  | nil =>
      by_cases h : k = key <;> simp [addToGroups, lookupGroup, h]
  | cons p rest ih =>
      obtain ⟨q, fs⟩ := p
      by_cases hq : q = k
      · subst hq
        by_cases hk : q = key
        · subst hk
          simp [addToGroups, lookupGroup]
        · simp [addToGroups, lookupGroup, hk]
      · by_cases hk : q = key
        · subst hk
          have hkq : ¬k = q := fun h => hq h.symm
          simp [addToGroups, lookupGroup, hq, hkq]
        · simp [addToGroups, lookupGroup, hq, hk, ih]

/-- The classification fold, started from any accumulator, appends to the
group of each key exactly the qualifying files bearing that key, in input
order. -/
theorem lookupGroup_classify_fold (cutoff : DateTime)
    (files : List FileRecord) :
    ∀ (groups : List (String × List FileRecord)) (key : String),
      lookupGroup
          (files.foldl
            (fun groups f =>
              if f.createdAt.before cutoff then
                addToGroups groups (monthKey f.createdAt) f
              else groups)
            groups) key =
        lookupGroup groups key ++
          files.filter
            (fun f => f.createdAt.before cutoff &&
              decide (monthKey f.createdAt = key)) := by
  induction files with
  | nil => intro groups key; simp
  | cons f fs ih =>
      intro groups key
      by_cases hb : f.createdAt.before cutoff
      · by_cases hk : monthKey f.createdAt = key
        · simp [List.foldl_cons, hb, ih, lookupGroup_addToGroups, hk,
            List.filter_cons]
        · simp [List.foldl_cons, hb, ih, lookupGroup_addToGroups, hk,
            List.filter_cons]
      · simp [List.foldl_cons, hb, ih, List.filter_cons]

/-- Each monthly group of classifyForArchive is exactly the filter of the
input by the age test and the month key, in input order. -/
theorem lookupGroup_classifyForArchive (files : List FileRecord)
    (cutoff : DateTime) (key : String) :
    lookupGroup (classifyForArchive files cutoff) key =
      files.filter
        (fun f => f.createdAt.before cutoff &&
          decide (monthKey f.createdAt = key)) := by
  have h := lookupGroup_classify_fold cutoff files [] key
  simpa [classifyForArchive, lookupGroup] using h

/-- Claim C6: for a fixed set of FileRecords and a fixed cutoff, the
monthly classification partitions the qualifying files the same way
regardless of input order: permuted inputs give, for every month key,
groups equal as multisets, and a file lies in the group of a key exactly
when it is an input file older than the cutoff whose own createdAt
yields that key. -/
theorem classify_partition_deterministic
    (l₁ l₂ : List FileRecord) (cutoff : DateTime) (hperm : l₁.Perm l₂) :
    (∀ key : String,
        (lookupGroup (classifyForArchive l₁ cutoff) key).Perm
          (lookupGroup (classifyForArchive l₂ cutoff) key)) ∧
      (∀ (f : FileRecord) (key : String),
        f ∈ lookupGroup (classifyForArchive l₁ cutoff) key ↔
          f ∈ l₁ ∧ f.createdAt.before cutoff = true ∧
            monthKey f.createdAt = key) := by
  constructor
  · intro key
    rw [lookupGroup_classifyForArchive, lookupGroup_classifyForArchive]
    exact hperm.filter _
  · intro f key
    rw [lookupGroup_classifyForArchive, List.mem_filter]
    simp [Bool.and_eq_true, and_assoc]

/-- Sample raw file used by the concrete classification examples. -/
def rawFileA : FileRecord := ⟨1, "forex_data_a.csv", 10, ⟨2024, 1, 3⟩⟩

/-- Second sample raw file used by the concrete classification
examples. -/
def rawFileB : FileRecord := ⟨2, "forex_data_b.csv", 20, ⟨2024, 1, 9⟩⟩

/-- Witness for C6 at a concrete two-file input and its transposition. -/
theorem classify_partition_deterministic_witness :
    (lookupGroup (classifyForArchive [rawFileA, rawFileB] ⟨2024, 6, 1⟩)
        "2024-01").Perm
      (lookupGroup (classifyForArchive [rawFileB, rawFileA] ⟨2024, 6, 1⟩)
        "2024-01") :=
  (classify_partition_deterministic [rawFileA, rawFileB]
      [rawFileB, rawFileA] ⟨2024, 6, 1⟩
      (List.Perm.swap rawFileB rawFileA [])).1 "2024-01"

/-- Sample raw file whose name carries the compressed marker yet is old
enough to qualify for archiving. -/
def markedOldFile : FileRecord :=
  ⟨1, "forex_data_compressed_old.csv", 100, ⟨2024, 1, 5⟩⟩

/-- Sample cutoff date used by the concrete classification examples. -/
def sampleCutoff : DateTime := ⟨2024, 6, 1⟩

/-- Claim C7 counterexample: a file whose name contains the compressed
marker and whose date qualifies lands in its monthly group, so the
classification excludes nothing by name. -/
theorem classify_marker_counterexample :
    strContains markedOldFile.name "compressed" = true ∧
      markedOldFile ∈
        lookupGroup (classifyForArchive [markedOldFile] sampleCutoff)
          "2024-01" := by
  decide

/-- Claim C7 as amended: the monthly classification applies no name
test; every input file strictly older than the cutoff is placed in the
group of its own month key, whether or not its name bears a compressed
or archived marker. -/
theorem classify_no_marker_exclusion
    (files : List FileRecord) (cutoff : DateTime) (f : FileRecord)
    (hmem : f ∈ files) (hold : f.createdAt.before cutoff = true) :
    f ∈ lookupGroup (classifyForArchive files cutoff)
        (monthKey f.createdAt) := by
  rw [lookupGroup_classifyForArchive, List.mem_filter]
  exact ⟨hmem, by simp [hold]⟩

/-- Witness for the amended C7 at the marked old file. -/
theorem classify_no_marker_exclusion_witness :
    markedOldFile ∈
      lookupGroup (classifyForArchive [markedOldFile] sampleCutoff)
        (monthKey markedOldFile.createdAt) :=
  classify_no_marker_exclusion [markedOldFile] sampleCutoff markedOldFile
    (by decide) (by decide)

/-! ## The archiving pass -/

/-- Effect oracle of the C1 failing input: downloading file 1 raises,
downloading any other file yields one row, uploads and deletions
succeed. -/
def dlFailEnv : ArchiveEnv :=
  ⟨fun f => if f.id = 1 then .error "download failed" else .ok [["row"]],
    fun _ => true, fun _ => true⟩

/-- Claim C1, evaluation of the code at the failing input: in the group
of 2024-01 holding rawFileA (whose download raises) and rawFileB (whose
download succeeds), archiveMonth deletes both files, rawFileA included,
although the download of rawFileA raised and its rows were never read
into the archive.  The delete loop runs over month_files, not over the
successfully downloaded subset, so the skipped file does not stay in the
raw category as the claim requires. -/
theorem archiveMonth_deletes_failed_download :
    archiveMonth dlFailEnv "2024-01" [rawFileA, rawFileB] =
        ⟨[1, 2], false⟩ ∧
      dlFailEnv.download rawFileA = .error "download failed" ∧
      rawFileA.id = 1 := by
  decide

/-- Claim C2: originals of a monthly group are deleted only behind a
successful upload.  When the upload of the archive of a group raises, the
group body is abandoned with no deletion performed; whenever any
deletion was performed, the upload had succeeded; and a group whose
processing raised performed no deletion. -/
theorem archiveMonth_upload_gates_deletion :
    (∀ (env : ArchiveEnv) (month : String) (fs : List FileRecord),
        env.uploadOk (archiveFilename month) = false →
          (archiveMonth env month fs).deleted = []) ∧
      (∀ (env : ArchiveEnv) (month : String) (fs : List FileRecord),
        (archiveMonth env month fs).deleted ≠ [] →
          env.uploadOk (archiveFilename month) = true) ∧
      (∀ (env : ArchiveEnv) (month : String) (fs : List FileRecord),
        (archiveMonth env month fs).raised = true →
          (archiveMonth env month fs).deleted = []) := by
  refine ⟨?_, ?_, ?_⟩
  · intro env month fs h
    rcases Bool.eq_false_or_eq_true (downloadGroup env fs).isEmpty with
      he | he <;> simp [archiveMonth, he, h]
  · intro env month fs hne
    by_cases hu : env.uploadOk (archiveFilename month) = true
    · exact hu
    · exfalso
      apply hne
      have hu' : env.uploadOk (archiveFilename month) = false :=
        Bool.not_eq_true _ ▸ hu
      rcases Bool.eq_false_or_eq_true (downloadGroup env fs).isEmpty with
        he | he <;> simp [archiveMonth, he, hu']
  · intro env month fs h
    rcases Bool.eq_false_or_eq_true (downloadGroup env fs).isEmpty with
      he | he
    · simp [archiveMonth, he] at h
    · by_cases hu : env.uploadOk (archiveFilename month) = true
      · simp [archiveMonth, he, hu] at h
      · have hu' : env.uploadOk (archiveFilename month) = false :=
          Bool.not_eq_true _ ▸ hu
        simp [archiveMonth, he, hu']

/-- Effect oracle whose uploads all raise while downloads and deletions
succeed. -/
def upFailEnv : ArchiveEnv :=
  ⟨fun _ => .ok [["row"]], fun _ => false, fun _ => true⟩

/-- Witness for C2: with an upload that raises, the group of rawFileA
and rawFileB loses no original. -/
theorem archiveMonth_upload_gates_deletion_witness :
    (archiveMonth upFailEnv "2024-01" [rawFileA, rawFileB]).deleted = [] :=
  archiveMonth_upload_gates_deletion.1 upFailEnv "2024-01"
    [rawFileA, rawFileB] rfl

/-- Effect oracle used by the listing counterexample; its member
functions are never reached because the listing itself fails. -/
def plainEnv : ArchiveEnv :=
  ⟨fun _ => .ok [], fun _ => true, fun _ => true⟩

/-- Claim C8 counterexample: a listing call that errors is not turned
into an empty file list after retries; the error of the single call comes
back verbatim, and through compress_and_archive_data the exception
escapes the pass instead of the category being treated as empty. -/
theorem listing_error_counterexample :
    list_files_in_folder (.error "rate limit") = .error "rate limit" ∧
      list_files_in_folder (.error "rate limit") ≠ .ok [] ∧
      compress_and_archive_data plainEnv sampleCutoff
          (.error "rate limit") = ⟨[], some "rate limit"⟩ := by
  decide

/-- Claim C8 as amended: list_files_in_folder performs exactly one
listing call with no retry, no backoff and no catch; an error from the
call propagates unchanged to the caller, and inside
compress_and_archive_data it aborts the pass with no group processed,
rather than the category being treated as an empty list. -/
theorem listing_error_propagates (e : String) (env : ArchiveEnv)
    (cutoff : DateTime) :
    list_files_in_folder (.error e) = .error e ∧
      compress_and_archive_data env cutoff (.error e) = ⟨[], some e⟩ :=
  ⟨rfl, rfl⟩

/-! ## The lifecycle orchestrator -/

/-- Run outcomes of the C3 counterexample: the archiving state raises
and every other state would complete. -/
def archiveFailRun : RunEnv :=
  ⟨none, some "boom", none, none, 5, 12, none, none, 5, 15, 40, 3⟩

/-- Claim C3 counterexample: when the archiving state raises, nothing in
run_full_cleanup catches it; the run aborts with that exception and no
storage report is produced, so the orchestrator does not proceed to the
reporting state. -/
theorem run_full_cleanup_counterexample :
    run_full_cleanup archiveFailRun = .error "boom" ∧
      (run_full_cleanup archiveFailRun).isOk = false := by
  decide

/-- Claim C3 as amended: run_full_cleanup contains no state-boundary
catch, so the first state that raises aborts the whole run with that
exception; a storage report is produced exactly when every state before
reporting completed without raising (the emergency state counting only
when the rechecked usage still exceeds the configured maximum). -/
theorem run_full_cleanup_first_failure_aborts (env : RunEnv) :
    (run_full_cleanup env).isOk = true ↔
      env.optimizeErr = none ∧ env.archiveErr = none ∧
        env.modelsErr = none ∧ env.cleanErr = none ∧
        (env.maxStorageGB < env.usedGBAfter → env.emergencyErr = none) ∧
        env.reportErr = none := by
  obtain ⟨o, a, m, c, ua, ms, em, re, u, l, rc, mc⟩ := env
  by_cases h : ms < ua
  · cases o <;> cases a <;> cases m <;> cases c <;> cases em <;> cases re <;>
      simp [run_full_cleanup, Except.isOk, Except.toBool, h]
  · cases o <;> cases a <;> cases m <;> cases c <;> cases em <;> cases re <;>
      simp [run_full_cleanup, Except.isOk, Except.toBool, h]

/-- Run outcomes in which every state completes. -/
def cleanRun : RunEnv :=
  ⟨none, none, none, none, 5, 12, none, none, 5, 15, 40, 3⟩

/-- Witness for the amended C3: a run whose states all complete does
reach the reporting state. -/
theorem run_full_cleanup_first_failure_aborts_witness :
    (run_full_cleanup cleanRun).isOk = true :=
  (run_full_cleanup_first_failure_aborts cleanRun).mpr
    ⟨rfl, rfl, rfl, rfl, fun _ => rfl, rfl⟩

/-! ## The emergency reclaimer -/

/-- Size sum of the empty list. -/
theorem sumSizes_nil : sumSizes [] = 0 := rfl

/-- Size sum of a cons. -/
theorem sumSizes_cons (f : FileRecord) (l : List FileRecord) :
    sumSizes (f :: l) = f.size + sumSizes l := by
  simp [sumSizes]

/-- Behaviour of the emergency deletion loop from any starting freed
count: the deleted files form a subsequence of the candidates, the final
freed count is the start plus the sizes of the deleted files, and every
deletion was performed while the freed count was still below the
target. -/
theorem emergencyLoop_spec (dk : Nat → Bool) (t : ℚ) :
    ∀ (fs : List FileRecord) (freed : Nat),
      (emergencyLoop dk t fs freed).1.Sublist fs ∧
        (emergencyLoop dk t fs freed).2 =
          freed + sumSizes (emergencyLoop dk t fs freed).1 ∧
        ∀ (pre : List FileRecord) (f : FileRecord) (post : List FileRecord),
          (emergencyLoop dk t fs freed).1 = pre ++ f :: post →
            (freed : ℚ) + (sumSizes pre : ℚ) < t := by
  intro fs
  induction fs with
  | nil =>
      intro freed
      refine ⟨by simp [emergencyLoop], by simp [emergencyLoop, sumSizes_nil],
        ?_⟩
      intro pre f post h
      rw [show emergencyLoop dk t [] freed = ([], freed) from rfl] at h
      obtain ⟨-, h2⟩ := List.append_eq_nil.mp h.symm
      exact absurd h2 (List.cons_ne_nil f post)
  | cons f fs ih =>
      intro freed
      by_cases hb : t ≤ (freed : ℚ)
      · have hE : emergencyLoop dk t (f :: fs) freed = ([], freed) := by
          simp [emergencyLoop, hb]
        refine ⟨by rw [hE]; exact List.nil_sublist _,
          by rw [hE]; simp [sumSizes_nil], ?_⟩
        intro pre g post h
        rw [hE] at h
        obtain ⟨-, h2⟩ := List.append_eq_nil.mp h.symm
        exact absurd h2 (List.cons_ne_nil g post)
      · by_cases hd : dk f.id = true
        · have hE : emergencyLoop dk t (f :: fs) freed =
              ((emergencyLoop dk t fs (freed + f.size)).1.cons f,
                (emergencyLoop dk t fs (freed + f.size)).2) := by
            simp [emergencyLoop, hb, hd]
          obtain ⟨ih1, ih2, ih3⟩ := ih (freed + f.size)
          refine ⟨?_, ?_, ?_⟩
          · rw [hE]
            exact List.Sublist.cons₂ f ih1
          · rw [hE]
            show (emergencyLoop dk t fs (freed + f.size)).2 =
              freed + sumSizes (f :: (emergencyLoop dk t fs (freed + f.size)).1)
            rw [ih2, sumSizes_cons]
            omega
          · intro pre g post h
            rw [hE] at h
            cases pre with
            | nil =>
                rw [sumSizes_nil]
                push_cast
                rw [add_zero]
                exact not_le.mp hb
            | cons p pre₂ =>
                rw [List.cons_append] at h
                have h' : f :: (emergencyLoop dk t fs (freed + f.size)).1 =
                    p :: (pre₂ ++ g :: post) := h
                have hfp : f = p := (List.cons.injEq _ _ _ _ ▸ h').1
                have hrest : (emergencyLoop dk t fs (freed + f.size)).1 =
                    pre₂ ++ g :: post := (List.cons.injEq _ _ _ _ ▸ h').2
                have hlt := ih3 pre₂ g post hrest
                rw [← hfp, sumSizes_cons]
                push_cast at hlt ⊢
                linarith
        · have hd' : dk f.id = false := Bool.not_eq_true _ ▸ hd
          have hE : emergencyLoop dk t (f :: fs) freed =
              emergencyLoop dk t fs freed := by
            simp [emergencyLoop, hb, hd']
          obtain ⟨ih1, ih2, ih3⟩ := ih freed
          refine ⟨by rw [hE]; exact List.Sublist.cons f ih1,
            by rw [hE]; exact ih2, ?_⟩
          intro pre g post h
          rw [hE] at h
          exact ih3 pre g post h

/-- Claim C5: when usage exceeds the configured maximum, the emergency
pass attempts the processed files in their given oldest-first order (the
deleted files form a subsequence of the candidates), accumulates exactly
the sizes of the files it deleted, and each deletion happened while the
freed bytes were still below the target of (used - max + 1) gigabytes,
so no further file is deleted once the target deficit is reached; the
loop otherwise ends only by exhausting the candidates. -/
theorem emergency_cleanup_stops_at_target
    (dk : Nat → Bool) (usedGB maxStorageGB : ℚ) (files : List FileRecord)
    (h : maxStorageGB < usedGB) :
    (emergency_cleanup dk usedGB maxStorageGB files).1.Sublist files ∧
      ((emergency_cleanup dk usedGB maxStorageGB files).2 =
        sumSizes (emergency_cleanup dk usedGB maxStorageGB files).1) ∧
      ∀ (pre : List FileRecord) (f : FileRecord) (post : List FileRecord),
        (emergency_cleanup dk usedGB maxStorageGB files).1 =
            pre ++ f :: post →
          (sumSizes pre : ℚ) <
            (usedGB - maxStorageGB + 1) * 1024 ^ 3 := by
  have hE : emergency_cleanup dk usedGB maxStorageGB files =
      emergencyLoop dk ((usedGB - maxStorageGB + 1) * 1024 ^ 3) files 0 := by
    simp [emergency_cleanup, h]
  obtain ⟨h1, h2, h3⟩ :=
    emergencyLoop_spec dk ((usedGB - maxStorageGB + 1) * 1024 ^ 3) files 0
  rw [hE]
  refine ⟨h1, by rw [h2]; simp, ?_⟩
  intro pre f post hp
  have := h3 pre f post hp
  simpa using this

/-- Deletion oracle whose deletions always succeed. -/
def allOkDelete : Nat → Bool := fun _ => true

/-- Sample processed file of four binary gigabytes. -/
def bigProcessedFile : FileRecord :=
  ⟨1, "processed_old.csv", 4 * 1024 ^ 3, ⟨2024, 1, 1⟩⟩

/-- Witness for C5 at usage fourteen of maximum twelve with one large
candidate. -/
theorem emergency_cleanup_stops_at_target_witness :
    (emergency_cleanup allOkDelete 14 12 [bigProcessedFile]).1.Sublist
        [bigProcessedFile] ∧
      ((emergency_cleanup allOkDelete 14 12 [bigProcessedFile]).2 =
        sumSizes (emergency_cleanup allOkDelete 14 12 [bigProcessedFile]).1) ∧
      ∀ (pre : List FileRecord) (f : FileRecord) (post : List FileRecord),
        (emergency_cleanup allOkDelete 14 12 [bigProcessedFile]).1 =
            pre ++ f :: post →
          (sumSizes pre : ℚ) < ((14 : ℚ) - 12 + 1) * 1024 ^ 3 :=
  emergency_cleanup_stops_at_target allOkDelete 14 12 [bigProcessedFile]
    (by decide)

/-! ## The model version manager -/

/-- Inserting an element permutes with putting it in front. -/
theorem insertDesc_perm (x : ModelInfo) (l : List ModelInfo) :
    (insertDesc x l).Perm (x :: l) := by
  induction l with
  | nil => exact List.Perm.refl _
  | cons y ys ih =>
      by_cases h : y.performance < x.performance
      · simp only [insertDesc, if_pos h]
        exact List.Perm.refl _
      · simp only [insertDesc, if_neg h]
        exact (ih.cons y).trans (List.Perm.swap x y ys)

/-- The fold underlying sortDesc permutes the accumulator and the
remaining input. -/
theorem sortDesc_fold_perm :
    ∀ (l acc : List ModelInfo),
      (l.foldl (fun a x => insertDesc x a) acc).Perm (acc ++ l) := by
  intro l
  induction l with
  | nil => intro acc; simp
  | cons x xs ih =>
      intro acc
      simp only [List.foldl_cons]
      have h1 := ih (insertDesc x acc)
      have h2 : (insertDesc x acc ++ xs).Perm ((x :: acc) ++ xs) :=
        (insertDesc_perm x acc).append_right xs
      have h3 : ((x :: acc) ++ xs).Perm (acc ++ x :: xs) := by
        rw [List.cons_append]
        exact List.perm_middle.symm
      exact (h1.trans h2).trans h3

/-- The stable descending sort permutes its input. -/
theorem sortDesc_perm (l : List ModelInfo) : (sortDesc l).Perm l := by
  simpa using sortDesc_fold_perm l []

/-- Insertion preserves descending sortedness by performance. -/
theorem sorted_insertDesc (x : ModelInfo) (l : List ModelInfo)
    (hl : List.Sorted
      (fun a b : ModelInfo => b.performance ≤ a.performance) l) :
    List.Sorted (fun a b : ModelInfo => b.performance ≤ a.performance)
      (insertDesc x l) := by
  induction l with
  | nil => simp [insertDesc]
  | cons y ys ih =>
      rw [List.sorted_cons] at hl
      obtain ⟨hy, hys⟩ := hl
      by_cases h : y.performance < x.performance
      · simp only [insertDesc, if_pos h]
        rw [List.sorted_cons]
        refine ⟨?_, ?_⟩
        · intro b hb
          rcases List.mem_cons.mp hb with rfl | hb₂
          · exact le_of_lt h
          · exact (hy b hb₂).trans (le_of_lt h)
        · rw [List.sorted_cons]
          exact ⟨hy, hys⟩
      · simp only [insertDesc, if_neg h]
        rw [List.sorted_cons]
        refine ⟨?_, ih hys⟩
        intro b hb
        have hb' : b ∈ x :: ys := (insertDesc_perm x ys).mem_iff.mp hb
        rcases List.mem_cons.mp hb' with rfl | hb₂
        · exact le_of_not_lt h
        · exact hy b hb₂

/-- The fold underlying sortDesc keeps a sorted accumulator sorted. -/
theorem sortDesc_fold_sorted :
    ∀ (l acc : List ModelInfo),
      List.Sorted (fun a b : ModelInfo => b.performance ≤ a.performance)
          acc →
        List.Sorted (fun a b : ModelInfo => b.performance ≤ a.performance)
          (l.foldl (fun a x => insertDesc x a) acc) := by
  intro l
  induction l with
  | nil => intro acc h; simpa using h
  | cons x xs ih =>
      intro acc h
      simp only [List.foldl_cons]
      exact ih _ (sorted_insertDesc x acc h)

/-- The stable descending sort yields a list sorted by performance
descending. -/
theorem sortDesc_sorted (l : List ModelInfo) :
    List.Sorted (fun a b : ModelInfo => b.performance ≤ a.performance)
      (sortDesc l) :=
  sortDesc_fold_sorted l [] (by simp)

/-- Inserting into a sorted list places the new element behind every
element of its own performance: on each performance class the filter
gains the new element at the end, or is unchanged. -/
theorem filter_insertDesc (x : ModelInfo) (l : List ModelInfo) (q : ℚ)
    (hl : List.Sorted
      (fun a b : ModelInfo => b.performance ≤ a.performance) l) :
    (insertDesc x l).filter (fun z => decide (z.performance = q)) =
      if x.performance = q then
        l.filter (fun z => decide (z.performance = q)) ++ [x]
      else l.filter (fun z => decide (z.performance = q)) := by
  induction l with
  | nil => by_cases hx : x.performance = q <;> simp [insertDesc, hx]
  | cons y ys ih =>
      rw [List.sorted_cons] at hl
      obtain ⟨hy, hys⟩ := hl
      by_cases h : y.performance < x.performance
      · simp only [insertDesc, if_pos h]
        by_cases hx : x.performance = q
        · have hnil : (y :: ys).filter
              (fun z => decide (z.performance = q)) = [] := by
            rw [List.filter_eq_nil_iff]
            intro b hb
            rcases List.mem_cons.mp hb with rfl | hb₂
            · simp only [decide_eq_true_eq]
              exact ne_of_lt (hx ▸ h)
            · simp only [decide_eq_true_eq]
              exact ne_of_lt (lt_of_le_of_lt (hy b hb₂) (hx ▸ h))
          rw [if_pos hx, hnil]
          simp [List.filter_cons, hx, hnil]
        · rw [if_neg hx]
          simp [List.filter_cons, hx]
      · simp only [insertDesc, if_neg h]
        have ihe := ih hys
        by_cases hx : x.performance = q <;>
          by_cases hyq : y.performance = q <;>
            simp [List.filter_cons, hx, hyq, ihe]

/-- The fold underlying sortDesc preserves each performance class of the
input in order behind that of the accumulator. -/
theorem sortDesc_fold_filter (q : ℚ) :
    ∀ (l acc : List ModelInfo),
      List.Sorted (fun a b : ModelInfo => b.performance ≤ a.performance)
          acc →
        (l.foldl (fun a x => insertDesc x a) acc).filter
            (fun z => decide (z.performance = q)) =
          acc.filter (fun z => decide (z.performance = q)) ++
            l.filter (fun z => decide (z.performance = q)) := by
  intro l
  induction l with
  | nil => intro acc h; simp
  | cons x xs ih =>
      intro acc h
      simp only [List.foldl_cons]
      rw [ih (insertDesc x acc) (sorted_insertDesc x acc h),
        filter_insertDesc x acc q h]
      by_cases hx : x.performance = q <;> simp [List.filter_cons, hx]

/-- Stability of the descending sort: every performance class comes out
exactly as it went in, so records of equal score keep their input
order. -/
theorem sortDesc_filter_stable (l : List ModelInfo) (q : ℚ) :
    (sortDesc l).filter (fun z => decide (z.performance = q)) =
      l.filter (fun z => decide (z.performance = q)) := by
  simpa [sortDesc] using sortDesc_fold_filter q l []
    (by simp)

/-- Sample model file of the C4 ranking example, score nine tenths. -/
def modelFileA : FileRecord := ⟨1, "modelA.h5", 5, ⟨2024, 1, 1⟩⟩

/-- Second sample model file of the C4 ranking example, score nine
tenths as well. -/
def modelFileB : FileRecord := ⟨2, "modelB.h5", 5, ⟨2024, 1, 2⟩⟩

/-- Third sample model file of the C4 ranking example, score seven
tenths. -/
def modelFileC : FileRecord := ⟨3, "modelC.h5", 5, ⟨2024, 1, 3⟩⟩

/-- Metrics of the C4 ranking example. -/
def tieMetrics : List (String × ℚ) :=
  [("modelA.h5", mkRat 9 10), ("modelB.h5", mkRat 9 10),
    ("modelC.h5", mkRat 7 10)]

/-- Model file with no recorded metric, so its score defaults to zero. -/
def defaultedModelFile : FileRecord := ⟨4, "modelD.h5", 5, ⟨2024, 1, 4⟩⟩

/-- Model file carrying a recorded negative metric. -/
def negScoredModelFile : FileRecord := ⟨5, "modelS.h5", 5, ⟨2024, 1, 5⟩⟩

/-- Metrics assigning a negative score to negScoredModelFile and nothing
to defaultedModelFile. -/
def negMetrics : List (String × ℚ) := [("modelS.h5", mkRat (-1) 1)]

/-- Claim C4 counterexample: a record with no recorded metric is scored
zero, so it sorts before a scored record of negative performance instead
of after all scored records. -/
theorem model_sort_defaulted_counterexample :
    negMetrics.lookup defaultedModelFile.name = none ∧
      negMetrics.lookup negScoredModelFile.name = some (mkRat (-1) 1) ∧
      sortDesc (buildModels [defaultedModelFile, negScoredModelFile]
          negMetrics) =
        [⟨defaultedModelFile, 0⟩, ⟨negScoredModelFile, mkRat (-1) 1⟩] := by
  decide

/-- Claim C4 as amended: the model manager sorts by performance score
descending with a stable sort, so equal scores keep their input order;
a record with no recorded metric is scored zero, which places it after
all positively scored records but not after zero or negatively scored
ones; in particular for models A and B at nine tenths and C at seven
tenths with one primary and two total retained, A is kept in place, B is
moved to backup and C is deleted. -/
theorem model_ranking_stable :
    (∀ l : List ModelInfo,
        List.Sorted (fun a b : ModelInfo => b.performance ≤ a.performance)
          (sortDesc l)) ∧
      (∀ (l : List ModelInfo) (q : ℚ),
        (sortDesc l).filter (fun z => decide (z.performance = q)) =
          l.filter (fun z => decide (z.performance = q))) ∧
      manage_model_versions [modelFileA, modelFileB, modelFileC]
          tieMetrics 1 2 =
        ([⟨modelFileA, mkRat 9 10⟩], [⟨modelFileB, mkRat 9 10⟩],
          [⟨modelFileC, mkRat 7 10⟩]) :=
  ⟨sortDesc_sorted, sortDesc_filter_stable, by decide⟩

/-- Every member of any component of the positional partition is a
member of the partitioned list. -/
theorem mem_partitionModels (keepN backupN : Nat) :
    ∀ (i : Nat) (l : List ModelInfo) (x : ModelInfo),
      (x ∈ (partitionModels keepN backupN i l).1 ∨
          x ∈ (partitionModels keepN backupN i l).2.1 ∨
          x ∈ (partitionModels keepN backupN i l).2.2) →
        x ∈ l := by
  intro i l
  induction l generalizing i with
  | nil => intro x hx; simp [partitionModels] at hx
  | cons y ys ih =>
      intro x hx
      by_cases h1 : i < keepN
      · simp only [partitionModels, if_pos h1, List.mem_cons] at hx
        rcases hx with (rfl | hx) | hx | hx
        · exact List.mem_cons_self _ _
        · exact List.mem_cons_of_mem _ (ih (i + 1) x (Or.inl hx))
        · exact List.mem_cons_of_mem _ (ih (i + 1) x (Or.inr (Or.inl hx)))
        · exact List.mem_cons_of_mem _ (ih (i + 1) x (Or.inr (Or.inr hx)))
      · by_cases h2 : i < backupN
        · simp only [partitionModels, if_neg h1, if_pos h2,
            List.mem_cons] at hx
          rcases hx with hx | (rfl | hx) | hx
          · exact List.mem_cons_of_mem _ (ih (i + 1) x (Or.inl hx))
          · exact List.mem_cons_self _ _
          · exact List.mem_cons_of_mem _ (ih (i + 1) x (Or.inr (Or.inl hx)))
          · exact List.mem_cons_of_mem _ (ih (i + 1) x (Or.inr (Or.inr hx)))
        · simp only [partitionModels, if_neg h1, if_neg h2,
            List.mem_cons] at hx
          rcases hx with hx | hx | (rfl | hx)
          · exact List.mem_cons_of_mem _ (ih (i + 1) x (Or.inl hx))
          · exact List.mem_cons_of_mem _ (ih (i + 1) x (Or.inr (Or.inl hx)))
          · exact List.mem_cons_self _ _
          · exact List.mem_cons_of_mem _ (ih (i + 1) x (Or.inr (Or.inr hx)))

/-- Every candidate the model manager considers bears the .h5 marker. -/
theorem mem_buildModels_h5 (files : List FileRecord)
    (metrics : List (String × ℚ)) (x : ModelInfo)
    (hx : x ∈ buildModels files metrics) :
    strEndsWith x.file.name ".h5" = true := by
  simp only [buildModels, List.mem_map] at hx
  obtain ⟨g, hg, rfl⟩ := hx
  exact (List.mem_filter.mp hg).2

/-- Claim C10: a file of the models category whose name does not end in
.h5 is never ranked by the model manager, hence never moved to backup
and never deleted by a pruning pass, whatever its recorded performance
or position. -/
theorem model_manager_touches_only_h5
    (files : List FileRecord) (metrics : List (String × ℚ))
    (keepN backupN : Nat) (g : FileRecord)
    (hmem : g ∈ files) (hname : strEndsWith g.name ".h5" = false) :
    (∀ mi : ModelInfo,
        mi ∈ (manage_model_versions files metrics keepN backupN).2.1 →
          mi.file ≠ g) ∧
      (∀ mi : ModelInfo,
        mi ∈ (manage_model_versions files metrics keepN backupN).2.2 →
          mi.file ≠ g) := by
  have key : ∀ mi : ModelInfo,
      (mi ∈ (manage_model_versions files metrics keepN backupN).2.1 ∨
          mi ∈ (manage_model_versions files metrics keepN backupN).2.2) →
        mi.file ≠ g := by
    intro mi hmi heq
    simp only [manage_model_versions] at hmi
    have h1 : mi ∈ sortDesc (buildModels files metrics) := by
      rcases hmi with hmi | hmi
      · exact mem_partitionModels keepN backupN 0 _ mi (Or.inr (Or.inl hmi))
      · exact mem_partitionModels keepN backupN 0 _ mi (Or.inr (Or.inr hmi))
    have h2 : mi ∈ buildModels files metrics :=
      (sortDesc_perm _).mem_iff.mp h1
    have h3 := mem_buildModels_h5 files metrics mi h2
    rw [heq, hname] at h3
    exact Bool.false_ne_true h3
  exact ⟨fun mi h => key mi (Or.inl h), fun mi h => key mi (Or.inr h)⟩

/-- Sample non-model file sitting in the models category. -/
def plainTextFile : FileRecord := ⟨9, "notes.txt", 0, ⟨2024, 1, 1⟩⟩

/-- Witness for C10 at a models category holding one plain text file. -/
theorem model_manager_touches_only_h5_witness :
    (∀ mi : ModelInfo,
        mi ∈ (manage_model_versions [plainTextFile] [] 3 5).2.1 →
          mi.file ≠ plainTextFile) ∧
      (∀ mi : ModelInfo,
        mi ∈ (manage_model_versions [plainTextFile] [] 3 5).2.2 →
          mi.file ≠ plainTextFile) :=
  model_manager_touches_only_h5 [plainTextFile] [] 3 5 plainTextFile
    (by decide) (by decide)

/-! ## The storage report -/

/-- Threshold characterization of the three recommendations: each message
appears in the recommendation block exactly when its own threshold test
passes. -/
theorem mem_recommendationsFor (u l : ℚ) (rc mc : Nat) :
    (recCleanup ∈ recommendationsFor u l rc mc ↔ l * mkRat 8 10 < u) ∧
      (recCompress ∈ recommendationsFor u l rc mc ↔ 100 < rc) ∧
      (recPrune ∈ recommendationsFor u l rc mc ↔ 10 < mc) := by
  by_cases h1 : l * mkRat 8 10 < u <;> by_cases h2 : 100 < rc <;>
    by_cases h3 : 10 < mc <;>
      simp [recommendationsFor, h1, h2, h3, recCleanup, recCompress,
        recPrune]

/-- Claim C9: the report recommendations come from fixed strict
thresholds: the cleanup recommendation appears exactly when usage
exceeds eight tenths of the limit, the compress recommendation exactly
when the raw category holds strictly more than one hundred files, and
the prune recommendation exactly when the models category holds strictly
more than ten files; in particular one hundred and one raw files produce
the compress recommendation and one hundred do not. -/
theorem report_recommendation_thresholds :
    (∀ (u l : ℚ) (rc mc : Nat),
        (recCleanup ∈ (generate_storage_report u l rc mc).recommendations ↔
          l * mkRat 8 10 < u) ∧
        (recCompress ∈ (generate_storage_report u l rc mc).recommendations ↔
          100 < rc) ∧
        (recPrune ∈ (generate_storage_report u l rc mc).recommendations ↔
          10 < mc)) ∧
      recCompress ∈ (generate_storage_report 1 15 101 5).recommendations ∧
      recCompress ∉ (generate_storage_report 1 15 100 5).recommendations := by
  have hrec : ∀ (u l : ℚ) (rc mc : Nat),
      (generate_storage_report u l rc mc).recommendations =
        recommendationsFor u l rc mc := fun _ _ _ _ => rfl
  refine ⟨?_, ?_, ?_⟩
  · intro u l rc mc
    rw [hrec]
    exact mem_recommendationsFor u l rc mc
  · rw [hrec]
    exact (mem_recommendationsFor 1 15 101 5).2.1.mpr (by decide)
  · rw [hrec]
    intro hmem
    exact absurd ((mem_recommendationsFor 1 15 100 5).2.1.mp hmem)
      (by decide)

end StorageManager
